import Mathlib

/-!
Shallow embedding of the cpprom metrics library
(header `include/cpprom/cpprom.hpp`, implementation `src/cpprom.cpp`).

Conventions of the embedding:
* C++ `double` values are embedded as exact rationals (`ℚ`); where the code
  can hold positive infinity (histogram bucket upper bounds, sample values fed
  to `toString`) we use the two-constructor type `Double` below.
* C++ `assert(...)` statements are embedded as `Except Unit` failures: the
  function returns `Except.error ()` exactly when the assertion would fire
  (this is the library's "ContractViolation" surface).
* `std::unordered_map<LabelValues, std::unique_ptr<Metric>>` is embedded as an
  association list of `(key, metric id)` pairs together with a fresh-id
  counter: each `std::make_unique` allocation is one fresh id, so pointer
  identity of a Metric is captured by equality of ids, and the number of
  constructed Metrics equals the final value of the counter.
-/

set_option maxRecDepth 4000

namespace cpprom

/-- A C++ `double` as used by the serializer and bucket bounds: either a
finite value (embedded exactly as a rational) or positive infinity
(`std::numeric_limits<double>::infinity()`). -/
inductive Double where
  | finite (q : ℚ)
  | inf
deriving DecidableEq, Repr

/-- The comparison `value <= bucket.upperBound` from `Histogram::observe`,
where `value` is a finite observation and the bound may be `+Inf`. -/
def Double.leB (v : ℚ) : Double → Bool
  | .inf => true
  | .finite q => decide (v ≤ q)

/-- `isAlpha` from `src/cpprom.cpp`: `(ch >= 'a' && ch <= 'z') || (ch >= 'A' && ch <= 'Z')`. -/
def isAlpha (ch : Char) : Bool :=
  ('a' ≤ ch && ch ≤ 'z') || ('A' ≤ ch && ch ≤ 'Z')

/-- `isDigit` from `src/cpprom.cpp`: `ch >= '0' && ch <= '9'`. -/
def isDigit (ch : Char) : Bool :=
  '0' ≤ ch && ch ≤ '9'

namespace detail

/-- `detail::isValidMetricName` from `src/cpprom.cpp`: empty is rejected, the
first character must be in `[a-zA-Z_:]`, every later character in
`[a-zA-Z0-9_:]`. -/
def isValidMetricName (s : String) : Bool :=
  match s.data with
  | [] => false
  | c :: rest =>
    (isAlpha c || c == '_' || c == ':')
      && rest.all (fun ch => isAlpha ch || isDigit ch || ch == '_' || ch == ':')

/-- `detail::isValidLabelName` from `src/cpprom.cpp`, translated branch by
branch: the empty string returns `true` (the source's first branch), a name
starting with two underscores returns `false`, otherwise the first character
must be in `[a-zA-Z_]` and every later character in `[a-zA-Z0-9_]`. -/
def isValidLabelName (s : String) : Bool :=
  match s.data with
  | [] => true
  | '_' :: '_' :: _ => false
  | c :: rest =>
    (isAlpha c || c == '_')
      && rest.all (fun ch => isAlpha ch || isDigit ch || ch == '_')

end detail

/-- `Counter` (`include/cpprom/cpprom.hpp`): its label values and the atomic
`value_` member, initialized to `0.0` by the member initializer. -/
structure Counter where
  labelValues : List String
  value : ℚ
deriving DecidableEq, Repr

/-- The `Counter` constructor: stores the label values; `value_ { 0.0 }`. -/
def counterInit (labelValues : List String) : Counter :=
  ⟨labelValues, 0⟩

/-- `Counter::inc`: `assert(delta > 0.0); atomicAdd(value_, delta);`.
The assertion is modelled as the `Except.error` branch; it fires before the
add, so on failure no new counter state is produced. -/
def Counter.inc (c : Counter) (delta : ℚ) : Except Unit Counter :=
  if 0 < delta then .ok { c with value := c.value + delta } else .error ()

/-- A sequence of `Counter::inc` calls, failing as soon as one fails. -/
def Counter.incAll (c : Counter) : List ℚ → Except Unit Counter
  | [] => .ok c
  | d :: ds =>
    match c.inc d with
    | .ok c' => c'.incAll ds
    | .error e => .error e

/-- `Gauge` (`include/cpprom/cpprom.hpp`): label values and the atomic
`value_` member, initialized to `0.0`. -/
structure Gauge where
  labelValues : List String
  value : ℚ
deriving DecidableEq, Repr

/-- The `Gauge` constructor: `value_ { 0.0 }`. -/
def gaugeInit (labelValues : List String) : Gauge :=
  ⟨labelValues, 0⟩

/-- `Gauge::inc`: `atomicAdd(value_, delta)`. -/
def Gauge.inc (g : Gauge) (delta : ℚ) : Gauge :=
  { g with value := g.value + delta }

/-- `Gauge::dec`: `atomicAdd(value_, -delta)`. -/
def Gauge.dec (g : Gauge) (delta : ℚ) : Gauge :=
  { g with value := g.value + -delta }

/-- `Gauge::TrackInProgressHandle` constructor: `gauge.inc()` (delta 1.0). -/
def Gauge.trackAcquire (g : Gauge) : Gauge :=
  g.inc 1

/-- `Gauge::TrackInProgressHandle` destructor: `gauge.dec()` (delta 1.0). -/
def Gauge.trackRelease (g : Gauge) : Gauge :=
  g.dec 1

/-- `Histogram::Bucket`: an upper bound and an atomic count initialized to 0. -/
structure Bucket where
  upperBound : Double
  count : Nat
deriving DecidableEq, Repr

/-- `Histogram`: label values, the atomic `sum_` (initialized `0.0`) and the
bucket vector. -/
structure Histogram where
  labelValues : List String
  sum : ℚ
  buckets : List Bucket
deriving DecidableEq, Repr

/-- The chain of `assert(buckets_[i - 1].upperBound < boundary)` checks in the
`Histogram` constructor's fill loop: each bound strictly above its predecessor. -/
def strictlyIncreasing : List ℚ → Bool
  | [] => true
  | [_] => true
  | a :: b :: rest => decide (a < b) && strictlyIncreasing (b :: rest)

/-- The `Histogram` constructor (`src/cpprom.cpp`): allocates
`bucketBounds.size() + 1` buckets (counts all zero), asserts
`buckets_.size() > 1` (at least one finite bound), fills the finite bounds
asserting strict increase, and sets the last bucket's bound to `+Inf`.
Both assertions are modelled as the `Except.error` branches. -/
def histogramInit (labelValues : List String) (bucketBounds : List ℚ) :
    Except Unit Histogram :=
  if bucketBounds.length + 1 > 1 then
    if strictlyIncreasing bucketBounds then
      .ok ⟨labelValues, 0,
        bucketBounds.map (fun b => ⟨.finite b, 0⟩) ++ [⟨.inf, 0⟩]⟩
    else .error ()
  else .error ()

/-- `Histogram::observe`: for every bucket with `value <= upperBound`,
increment its count; then `atomicAdd(sum_, value)`. -/
def Histogram.observe (h : Histogram) (value : ℚ) : Histogram :=
  { h with
    buckets := h.buckets.map
      (fun b => if Double.leB value b.upperBound then { b with count := b.count + 1 } else b),
    sum := h.sum + value }

/-- A sequence of `Histogram::observe` calls. -/
def Histogram.observeAll (h : Histogram) : List ℚ → Histogram
  | [] => h
  | v :: vs => (h.observe v).observeAll vs

/-- `Histogram::count`: `buckets_.back().count.load()` (the last bucket). -/
def Histogram.count (h : Histogram) : Nat :=
  (h.buckets.getLastD ⟨.inf, 0⟩).count

/-- `MetricFamily<Metric>` (`include/cpprom/cpprom.hpp`): the configuration
(`name_`, `help_`, `labelNames_`) together with the `metrics_` map. The
`unordered_map` is embedded as an association list from label-value keys to
metric ids, plus `nextId`, the id the next `std::make_unique` allocation will
receive (so `nextId` counts Metric constructions, and two map entries hold the
same live Metric iff they hold the same id). -/
structure MetricFamily where
  name : String
  help : String
  labelNames : List String
  metrics : List (List String × Nat)
  nextId : Nat
deriving DecidableEq, Repr

/-- `MetricFamily` constructor (`include/cpprom/cpprom.hpp` lines 168–179):
stores the configuration and asserts `detail::isValidMetricName(name_)` and
`detail::isValidLabelName` for every declared label name. The assertions are
modelled as the `Except.error` branch. No other check is performed — in
particular no check against a label named `le`, and no arity information
beyond storing `labelNames_`. -/
def metricFamilyInit (name : String) (labelNames : List String) (help : String) :
    Except Unit MetricFamily :=
  if detail.isValidMetricName name && labelNames.all detail.isValidLabelName then
    .ok ⟨name, help, labelNames, [], 0⟩
  else .error ()

/-- `metrics_.find(labelValues)` on the association-list embedding. -/
def findMetric (labelValues : List String) : List (List String × Nat) → Option Nat
  | [] => none
  | (k, i) :: rest => if k = labelValues then some i else findMetric labelValues rest

/-- `MetricFamily::labels` (`include/cpprom/cpprom.hpp` lines 181–192):
build the key from the arguments, `find` it in `metrics_`; on a miss,
`emplace` a newly constructed Metric under the key; return the mapped Metric.
The returned `Nat` is the id of the returned Metric (reference identity);
the returned `MetricFamily` is the state of the family after the call.
Note the source performs no arity check of `labelValues` against
`labelNames_` and takes no lock. -/
def MetricFamily.labels (fam : MetricFamily) (labelValues : List String) :
    Nat × MetricFamily :=
  match findMetric labelValues fam.metrics with
  | some i => (i, fam)
  | none =>
    (fam.nextId,
      { fam with
        metrics := fam.metrics ++ [(labelValues, fam.nextId)],
        nextId := fam.nextId + 1 })

/-- `Collector::Sample`: name, numeric value, label names and label values. -/
structure Sample where
  name : String
  value : Double
  labelNames : List String
  labelValues : List String
deriving DecidableEq, Repr

/-- `Collector::Family`: name, help, type tag and samples. -/
structure Family where
  name : String
  help : String
  type : String
  samples : List Sample
deriving DecidableEq, Repr

/-- `MetricFamily<Counter>::collect` (`src/cpprom.cpp` lines 344–355): one
sample per stored metric, carrying the family name, the metric's current
value, the declared label names and the metric's key. `valueOf` maps a metric
id to that metric's `value()` (the id → Counter store of the embedding). -/
def collectCounter (fam : MetricFamily) (valueOf : Nat → Double) : List Family :=
  [⟨fam.name, fam.help, "counter",
    fam.metrics.map (fun e => ⟨fam.name, valueOf e.2, fam.labelNames, e.1⟩)⟩]

/-- Multiplicity of the prime `p` in `n` (fuel-bounded helper for the decimal
exponent of a dyadic rational). -/
def countFactor (p : Nat) : Nat → Nat → Nat
  | 0, _ => 0
  | fuel + 1, n => if n % p = 0 ∧ p ≤ n then countFactor p fuel (n / p) + 1 else 0

/-- The number of digits `std::to_chars(..., chars_format::fixed)` emits after
the decimal point for the exact rational value `q`: the least `k` with
`q * 10^k` integral, i.e. the larger of the multiplicities of 2 and 5 in the
denominator. (Every finite `double` is a dyadic rational, so its denominator
is a power of two and this `k` exists; `to_chars` without a precision argument
emits the shortest fixed-notation string that round-trips, which for a value
that is an exact short decimal is exactly its minimal decimal expansion, with
no decimal point when the value is integral.) -/
def decExponent (q : ℚ) : Nat :=
  max (countFactor 2 q.den q.den) (countFactor 5 q.den q.den)

/-- Render a non-negative rational in the fixed notation of
`std::to_chars(..., chars_format::fixed)`: minimal digits, no trailing zeros,
no decimal point for integers. `m` is the numerator of `q` scaled to `k`
decimal digits (`q.den` divides `q.num.natAbs * 10 ^ k` exactly, by the
choice of `k`). -/
def renderNonneg (q : ℚ) : String :=
  let k := decExponent q
  let m := q.num.natAbs * 10 ^ k / q.den
  if k = 0 then Nat.repr m
  else
    let ds := (Nat.repr m).data
    let ds := List.replicate (k + 1 - ds.length) '0' ++ ds
    String.mk (ds.take (ds.length - k)) ++ "." ++ String.mk (ds.drop (ds.length - k))

/-- `toString` (`src/cpprom.cpp` lines 283–293): positive infinity renders as
the literal `+Inf`; every other value goes through
`std::to_chars(..., chars_format::fixed)` (no precision argument — shortest
round-trip fixed notation). -/
def toString : Double → String
  | .inf => "+Inf"
  | .finite q => if q < 0 then "-" ++ renderNonneg (-q) else renderNonneg q

/-- The tail of the label-list loop in `serialize`: every pair after the first
is preceded by a comma. -/
def labelPairsAux : List (String × String) → String
  | [] => ""
  | (n, v) :: rest => "," ++ n ++ "=\"" ++ v ++ "\"" ++ labelPairsAux rest

/-- The label-list loop in `serialize`: `name="value"` pairs, comma separated. -/
def labelPairs : List (String × String) → String
  | [] => ""
  | (n, v) :: rest => n ++ "=\"" ++ v ++ "\"" ++ labelPairsAux rest

/-- The per-sample body of `serialize` (`src/cpprom.cpp` lines 316–338): the
sample name; `assert(sample.labelNames.size() == sample.labelValues.size())`
(modelled as the `Except.error` branch); if there is at least one label value,
the brace-enclosed comma-separated `name="value"` list; then a space, the
rendered value and a newline. -/
def serializeSample (s : Sample) : Except Unit String :=
  if s.labelNames.length = s.labelValues.length then
    .ok (s.name
      ++ (if s.labelValues.length > 0 then
            "\x7b" ++ labelPairs (s.labelNames.zip s.labelValues) ++ "\x7d"
          else "")
      ++ " " ++ toString s.value ++ "\n")
  else .error ()

/-- The inner sample loop of `serialize`, concatenating the sample lines. -/
def serializeSamples : List Sample → Except Unit String
  | [] => .ok ""
  | s :: rest =>
    match serializeSample s with
    | .error e => .error e
    | .ok a =>
      match serializeSamples rest with
      | .error e => .error e
      | .ok b => .ok (a ++ b)

/-- The per-family body of `serialize` (`src/cpprom.cpp` lines 302–339): the
`# HELP` line only when `family.help.size() > 0`, always the `# TYPE` line,
then the sample lines, then the terminating blank line. -/
def serializeFamily (f : Family) : Except Unit String :=
  match serializeSamples f.samples with
  | .error e => .error e
  | .ok body =>
    .ok ((if f.help.length > 0 then "# HELP " ++ f.name ++ " " ++ f.help ++ "\n" else "")
      ++ "# TYPE " ++ f.name ++ " " ++ f.type ++ "\n" ++ body ++ "\n")

/-- `serialize` (`src/cpprom.cpp` lines 296–342): the family blocks in input
order, concatenated; the empty list yields the empty string. -/
def serialize : List Family → Except Unit String
  | [] => .ok ""
  | f :: rest =>
    match serializeFamily f with
    | .error e => .error e
    | .ok a =>
      match serialize rest with
      | .error e => .error e
      | .ok b => .ok (a ++ b)

/-! ## Helper lemmas -/

theorem incAll_of_pos (ds : List ℚ) : ∀ c : Counter, (∀ d ∈ ds, 0 < d) →
    c.incAll ds = .ok ⟨c.labelValues, c.value + ds.sum⟩ := by
  induction ds with
  | nil => intro c _; simp [Counter.incAll]
  | cons d ds ih =>
    intro c hpos
    have hd : 0 < d := hpos d (List.mem_cons_self d ds)
    have hstep : c.inc d = .ok ⟨c.labelValues, c.value + d⟩ := by
      simp [Counter.inc, hd]
    calc c.incAll (d :: ds)
        = (Counter.mk c.labelValues (c.value + d)).incAll ds := by
          rw [Counter.incAll, hstep]
      _ = .ok ⟨c.labelValues, c.value + d + ds.sum⟩ :=
          ih _ (fun x hx => hpos x (List.mem_cons_of_mem d hx))
      _ = .ok ⟨c.labelValues, c.value + (d :: ds).sum⟩ := by
          rw [List.sum_cons, add_assoc]

theorem strictlyIncreasing_iff : ∀ B : List ℚ,
    strictlyIncreasing B = true ↔ List.Chain' (· < ·) B := by
  intro B
  induction B with
  | nil => simp [strictlyIncreasing]
  | cons a t ih =>
    cases t with
    | nil => simp [strictlyIncreasing]
    | cons b t' =>
      rw [strictlyIncreasing, List.chain'_cons, Bool.and_eq_true, decide_eq_true_iff, ih]

theorem histogramInit_buckets {lv : List String} {B : List ℚ} {h : Histogram}
    (hok : histogramInit lv B = .ok h) :
    h.buckets = B.map (fun b => ⟨.finite b, 0⟩) ++ [⟨.inf, 0⟩] := by
  unfold histogramInit at hok
  split at hok
  · split at hok
    · cases hok
      rfl
    · cases hok
  · cases hok

theorem bucketUpdate_getD (v : ℚ) : ∀ (l : List Bucket) (i : Nat), i < l.length →
    (((l.map fun b =>
          if Double.leB v b.upperBound then { b with count := b.count + 1 } else b).getD
        i ⟨.inf, 0⟩).upperBound = (l.getD i ⟨.inf, 0⟩).upperBound
    ∧ ((l.map fun b =>
          if Double.leB v b.upperBound then { b with count := b.count + 1 } else b).getD
        i ⟨.inf, 0⟩).count
      = (l.getD i ⟨.inf, 0⟩).count
        + (if Double.leB v ((l.getD i ⟨.inf, 0⟩).upperBound) then 1 else 0)) := by
  intro l
  induction l with
  | nil => intro i hi; simp at hi
  | cons a t ih =>
    intro i hi
    cases i with
    | zero =>
      simp only [List.map_cons, List.getD_cons_zero]
      by_cases hb : Double.leB v a.upperBound <;> simp [hb]
    | succ n =>
      simp only [List.map_cons, List.getD_cons_succ]
      exact ih n (by simpa using hi)

theorem observe_map_upperBound (h : Histogram) (v : ℚ) :
    (h.observe v).buckets.map Bucket.upperBound = h.buckets.map Bucket.upperBound := by
  show (h.buckets.map _).map _ = _
  rw [List.map_map]
  apply List.map_congr_left
  intro b _
  by_cases hb : Double.leB v b.upperBound <;> simp [hb]

theorem observeAll_map_upperBound (vs : List ℚ) : ∀ h : Histogram,
    (h.observeAll vs).buckets.map Bucket.upperBound = h.buckets.map Bucket.upperBound := by
  induction vs with
  | nil => intro h; rfl
  | cons v vs ih =>
    intro h
    show ((h.observe v).observeAll vs).buckets.map _ = _
    rw [ih, observe_map_upperBound]

theorem getLastD_upperBound : ∀ (l : List Bucket) (d : Bucket),
    (l.getLastD d).upperBound = (l.map Bucket.upperBound).getLastD d.upperBound := by
  intro l
  induction l with
  | nil => intro d; rfl
  | cons a t ih =>
    intro d
    rw [List.getLastD_cons, List.map_cons, List.getLastD_cons, ih]

theorem findMetric_none_iff {k : List String} : ∀ l : List (List String × Nat),
    findMetric k l = none ↔ ∀ e ∈ l, e.1 ≠ k := by
  intro l
  induction l with
  | nil => simp [findMetric]
  | cons a t ih =>
    obtain ⟨ka, ia⟩ := a
    by_cases hk : ka = k
    · subst hk
      simp [findMetric]
    · simp [findMetric, hk, ih]

theorem findMetric_append {k : List String} {n : Nat} : ∀ l : List (List String × Nat),
    findMetric k l = none → findMetric k (l ++ [(k, n)]) = some n := by
  intro l
  induction l with
  | nil => intro _; simp [findMetric]
  | cons a t ih =>
    obtain ⟨ka, ia⟩ := a
    intro hf
    by_cases hk : ka = k
    · simp [findMetric, hk] at hf
    · simp only [List.cons_append, findMetric, if_neg hk] at hf ⊢
      exact ih hf

theorem filter_key_length_one {k : List String} {i : Nat} : ∀ l : List (List String × Nat),
    (l.map Prod.fst).Nodup → findMetric k l = some i →
    (l.filter (fun e => decide (e.1 = k))).length = 1 := by
  intro l
  induction l with
  | nil => intro _ h; cases h
  | cons a t ih =>
    obtain ⟨ka, ia⟩ := a
    intro hnd hf
    rw [List.map_cons, List.nodup_cons] at hnd
    obtain ⟨ha, hnd⟩ := hnd
    by_cases hk : ka = k
    · subst hk
      have hfilter : t.filter (fun e => decide (e.1 = ka)) = [] := by
        rw [List.filter_eq_nil_iff]
        intro e he
        simp only [decide_eq_true_eq]
        intro hek
        have hmem : e.1 ∈ t.map Prod.fst := List.mem_map_of_mem Prod.fst he
        rw [hek] at hmem
        exact ha hmem
      simp [List.filter_cons, hfilter]
    · simp only [findMetric, if_neg hk] at hf
      simp [List.filter_cons, hk, ih hnd hf]

/-- The histogram of the spec's worked example: bounds `[1, 5, 10]`, fresh. -/
def exampleHistogram : Histogram :=
  ⟨[], 0, [⟨.finite 1, 0⟩, ⟨.finite 5, 0⟩, ⟨.finite 10, 0⟩, ⟨.inf, 0⟩]⟩

/-- The observations of the spec's worked example: `[0.5, 3, 3, 7, 20]`. -/
def exampleObservations : List ℚ := [mkRat 1 2, 3, 3, 7, 20]

/-! ## Claim theorems -/

/-- C4: `Counter::inc(delta)` fails (assertion, the ContractViolation surface)
whenever `delta ≤ 0`, producing no new counter state, and a fresh counter that
receives any finite sequence of strictly positive increments ends up with
`value()` equal to the exact sum of the increments. -/
theorem counter_inc_spec :
    (∀ (c : Counter) (delta : ℚ), delta ≤ 0 → c.inc delta = .error ())
    ∧ ∀ (lv : List String) (ds : List ℚ), (∀ d ∈ ds, 0 < d) →
        (counterInit lv).incAll ds = .ok ⟨lv, ds.sum⟩ := by
  constructor
  · intro c delta hle
    simp [Counter.inc, not_lt.mpr hle]
  · intro lv ds hpos
    have h := incAll_of_pos ds (counterInit lv) hpos
    simpa [counterInit] using h

/-- Witness for C4 at concrete inputs: `inc (-1)` fails on a fresh counter,
and increments `[1, 2, 1/2]` on a fresh counter sum to `7/2`. -/
theorem counter_inc_spec_witness :
    ((-1 : ℚ) ≤ 0 ∧ Counter.inc ⟨[], 0⟩ (-1) = .error ())
    ∧ ((∀ d ∈ ([1, 2, mkRat 1 2] : List ℚ), 0 < d)
        ∧ (counterInit []).incAll [1, 2, mkRat 1 2] = .ok ⟨[], mkRat 7 2⟩) := by
  have hall : ∀ d ∈ ([1, 2, mkRat 1 2] : List ℚ), 0 < d := by
    intro d hd
    simp only [List.mem_cons, List.not_mem_nil, or_false] at hd
    rcases hd with rfl | rfl | rfl <;> norm_num [Rat.mkRat_eq_div]
  refine ⟨⟨by norm_num, counter_inc_spec.1 _ _ (by norm_num)⟩, ⟨hall, ?_⟩⟩
  have h := counter_inc_spec.2 [] [1, 2, mkRat 1 2] hall
  rw [h]
  norm_num [Rat.mkRat_eq_div]

/-- C9: acquiring a `Gauge::TrackInProgressHandle` increments the gauge by 1
and releasing it decrements by 1, so an acquire/release pair restores the
gauge's prior state; starting from a fresh gauge at 0, opening two trackers
and closing one leaves `value()` at 1, and closing the second returns it to 0. -/
theorem gauge_track_in_progress_spec :
    (∀ g : Gauge, g.trackAcquire.trackRelease = g)
    ∧ (gaugeInit []).trackAcquire.trackAcquire.trackRelease.value = 1
    ∧ (gaugeInit []).trackAcquire.trackAcquire.trackRelease.trackRelease.value = 0 := by
  refine ⟨?_, ?_, ?_⟩
  · intro g
    cases g with
    | mk lv v => simp [Gauge.trackAcquire, Gauge.trackRelease, Gauge.inc, Gauge.dec]
  · norm_num [gaugeInit, Gauge.trackAcquire, Gauge.trackRelease, Gauge.inc, Gauge.dec]
  · norm_num [gaugeInit, Gauge.trackAcquire, Gauge.trackRelease, Gauge.inc, Gauge.dec]

/-- C10: immediately after construction, a Counter's value is 0, a Gauge's
value is 0, and a successfully constructed Histogram has sum 0, every bucket
count 0, and hence `count()` 0. -/
theorem fresh_metrics_zero_spec (lv : List String) (B : List ℚ) (h : Histogram)
    (hok : histogramInit lv B = .ok h) :
    (counterInit lv).value = 0 ∧ (gaugeInit lv).value = 0
    ∧ h.sum = 0 ∧ (∀ b ∈ h.buckets, b.count = 0) ∧ h.count = 0 := by
  refine ⟨rfl, rfl, ?_, ?_, ?_⟩ <;>
    [skip; skip; skip] <;>
  · unfold histogramInit at hok
    split at hok
    · split at hok
      · cases hok
        first
        | rfl
        | (intro b hb
           rcases List.mem_append.mp hb with h1 | h1
           · obtain ⟨x, _, rfl⟩ := List.mem_map.mp h1
             rfl
           · simp at h1
             rw [h1])
        | (show (Histogram.count _) = 0
           unfold Histogram.count
           rw [List.getLastD_concat])
      · cases hok
    · cases hok

/-- Witness for C10: the histogram over bounds `[1]`. -/
theorem fresh_metrics_zero_spec_witness :
    histogramInit ["method"] [1] = .ok ⟨["method"], 0, [⟨.finite 1, 0⟩, ⟨.inf, 0⟩]⟩
    ∧ ((counterInit ["method"]).value = 0 ∧ (gaugeInit ["method"]).value = 0
      ∧ (⟨["method"], 0, [⟨.finite 1, 0⟩, ⟨.inf, 0⟩]⟩ : Histogram).sum = 0
      ∧ (∀ b ∈ (⟨["method"], 0, [⟨.finite 1, 0⟩, ⟨.inf, 0⟩]⟩ : Histogram).buckets, b.count = 0)
      ∧ (⟨["method"], 0, [⟨.finite 1, 0⟩, ⟨.inf, 0⟩]⟩ : Histogram).count = 0) :=
  ⟨rfl, fresh_metrics_zero_spec ["method"] [1] _ rfl⟩

/-- C7: `Histogram` construction over a bound list `B` succeeds exactly when
`B` is non-empty and strictly increasing (otherwise the constructor's
assertions fire), and on success the stored buckets are the bounds of `B` in
order followed by one `+Inf` bucket. -/
theorem histogram_init_spec (lv : List String) (B : List ℚ) :
    ((∃ h, histogramInit lv B = .ok h) ↔ (B ≠ [] ∧ List.Chain' (· < ·) B))
    ∧ ∀ h, histogramInit lv B = .ok h →
        h.buckets = B.map (fun b => ⟨.finite b, 0⟩) ++ [⟨.inf, 0⟩] := by
  constructor
  · constructor
    · rintro ⟨h, hok⟩
      unfold histogramInit at hok
      split at hok
      · split at hok
        · refine ⟨?_, (strictlyIncreasing_iff B).mp (by assumption)⟩
          intro hB
          subst hB
          simp at *
        · cases hok
      · cases hok
    · rintro ⟨hne, hchain⟩
      refine ⟨⟨lv, 0, B.map (fun b => ⟨.finite b, 0⟩) ++ [⟨.inf, 0⟩]⟩, ?_⟩
      unfold histogramInit
      rw [if_pos (by have := List.length_pos.mpr hne; omega),
        if_pos ((strictlyIncreasing_iff B).mpr hchain)]
  · intro h hok
    unfold histogramInit at hok
    split at hok
    · split at hok
      · cases hok
        rfl
      · cases hok
    · cases hok

/-- Witness for C7 at concrete inputs: bounds `[1, 5, 10]` yield buckets
`1, 5, 10, +Inf` (construction succeeds), matching the appended-`+Inf` shape. -/
theorem histogram_init_spec_witness :
    histogramInit [] [1, 5, 10]
      = .ok ⟨[], 0, [⟨.finite 1, 0⟩, ⟨.finite 5, 0⟩, ⟨.finite 10, 0⟩, ⟨.inf, 0⟩]⟩
    ∧ (⟨[], 0, [⟨.finite 1, 0⟩, ⟨.finite 5, 0⟩, ⟨.finite 10, 0⟩, ⟨.inf, 0⟩]⟩
        : Histogram).buckets
      = ([1, 5, 10] : List ℚ).map (fun b => ⟨.finite b, 0⟩) ++ [⟨.inf, 0⟩] := by
  have h1 : histogramInit [] [1, 5, 10]
      = .ok ⟨[], 0, [⟨.finite 1, 0⟩, ⟨.finite 5, 0⟩, ⟨.finite 10, 0⟩, ⟨.inf, 0⟩]⟩ := by
    unfold histogramInit
    rw [if_pos (by norm_num), if_pos (by norm_num [strictlyIncreasing])]
    rfl
  exact ⟨h1, (histogram_init_spec [] [1, 5, 10]).2 _ h1⟩

/-- C2: `Histogram::observe(v)` increments by exactly 1 the count of every
bucket whose upper bound is `≥ v` (the `+Inf` bucket included), leaves every
other bucket count and every bucket bound unchanged, and adds `v` to the
running sum; for a constructed histogram `count()` (the last bucket's count)
is the `+Inf` bucket's count after any sequence of observations; and the
worked example — bounds `[1, 5, 10]`, observations `[0.5, 3, 3, 7, 20]` —
yields bucket counts `1, 3, 4, 5`, sum `33.5` and `count() = 5`. -/
theorem histogram_observe_spec :
    (∀ (h : Histogram) (v : ℚ) (i : Nat), i < h.buckets.length →
        ((h.observe v).buckets.getD i ⟨.inf, 0⟩).upperBound
            = (h.buckets.getD i ⟨.inf, 0⟩).upperBound
        ∧ ((h.observe v).buckets.getD i ⟨.inf, 0⟩).count
            = (h.buckets.getD i ⟨.inf, 0⟩).count
              + (if Double.leB v ((h.buckets.getD i ⟨.inf, 0⟩).upperBound) then 1 else 0))
    ∧ (∀ (h : Histogram) (v : ℚ), (h.observe v).sum = h.sum + v)
    ∧ (∀ (lv : List String) (B : List ℚ) (h : Histogram), histogramInit lv B = .ok h →
        ∀ vs : List ℚ,
          ((h.observeAll vs).buckets.getLastD ⟨.inf, 0⟩).upperBound = .inf
          ∧ (h.observeAll vs).count = ((h.observeAll vs).buckets.getLastD ⟨.inf, 0⟩).count)
    ∧ (histogramInit [] [1, 5, 10] = .ok exampleHistogram
      ∧ (exampleHistogram.observeAll exampleObservations).buckets.map Bucket.count
          = [1, 3, 4, 5]
      ∧ (exampleHistogram.observeAll exampleObservations).sum = mkRat 67 2
      ∧ (exampleHistogram.observeAll exampleObservations).count = 5) := by
  refine ⟨?_, fun h v => rfl, ?_, ?_, ?_, ?_, ?_⟩
  · intro h v i hi
    exact bucketUpdate_getD v h.buckets i hi
  · intro lv B h hok vs
    refine ⟨?_, rfl⟩
    rw [getLastD_upperBound, observeAll_map_upperBound, histogramInit_buckets hok,
      List.map_append]
    simp [List.getLastD_concat]
  · rfl
  · decide
  · simp only [exampleHistogram, exampleObservations, Histogram.observeAll, Histogram.observe]
    norm_num [Rat.mkRat_eq_div]
  · decide

/-- Witness for C2 at concrete inputs: the single-bound histogram `[1]`,
observation `1`, bucket index `0`, and one observation round. -/
theorem histogram_observe_spec_witness :
    ((0 : Nat) < (⟨[], 0, [⟨.finite 1, 0⟩, ⟨.inf, 0⟩]⟩ : Histogram).buckets.length
      ∧ (((⟨[], 0, [⟨.finite 1, 0⟩, ⟨.inf, 0⟩]⟩ : Histogram).observe 1).buckets.getD 0
            ⟨.inf, 0⟩).upperBound
          = ((⟨[], 0, [⟨.finite 1, 0⟩, ⟨.inf, 0⟩]⟩ : Histogram).buckets.getD 0
            ⟨.inf, 0⟩).upperBound
      ∧ (((⟨[], 0, [⟨.finite 1, 0⟩, ⟨.inf, 0⟩]⟩ : Histogram).observe 1).buckets.getD 0
            ⟨.inf, 0⟩).count
          = ((⟨[], 0, [⟨.finite 1, 0⟩, ⟨.inf, 0⟩]⟩ : Histogram).buckets.getD 0
              ⟨.inf, 0⟩).count
            + (if Double.leB 1
                (((⟨[], 0, [⟨.finite 1, 0⟩, ⟨.inf, 0⟩]⟩ : Histogram).buckets.getD 0
                  ⟨.inf, 0⟩).upperBound) then 1 else 0))
    ∧ (histogramInit [] [1] = .ok ⟨[], 0, [⟨.finite 1, 0⟩, ⟨.inf, 0⟩]⟩
      ∧ (((⟨[], 0, [⟨.finite 1, 0⟩, ⟨.inf, 0⟩]⟩ : Histogram).observeAll [1]).buckets.getLastD
            ⟨.inf, 0⟩).upperBound = .inf
      ∧ ((⟨[], 0, [⟨.finite 1, 0⟩, ⟨.inf, 0⟩]⟩ : Histogram).observeAll [1]).count
          = (((⟨[], 0, [⟨.finite 1, 0⟩, ⟨.inf, 0⟩]⟩ : Histogram).observeAll [1]).buckets.getLastD
              ⟨.inf, 0⟩).count) := by
  refine ⟨⟨by norm_num, ?_⟩, rfl, ?_⟩
  · exact histogram_observe_spec.1 ⟨[], 0, [⟨.finite 1, 0⟩, ⟨.inf, 0⟩]⟩ 1 0 (by norm_num)
  · exact histogram_observe_spec.2.2.1 [] [1] ⟨[], 0, [⟨.finite 1, 0⟩, ⟨.inf, 0⟩]⟩ rfl [1]

/-- C1: for a family whose map has unique keys, two `labels` (resolve) calls
with the same key `k` (of the declared arity) return the same metric id
(reference identity), the second call leaves the family — in particular its
metric map — unchanged and allocates nothing, at most one metric is
constructed across both calls, and afterwards the map holds exactly one entry
for `k`. -/
theorem resolve_same_metric_spec (fam : MetricFamily) (k : List String)
    (_hlen : k.length = fam.labelNames.length)
    (hnodup : (fam.metrics.map Prod.fst).Nodup) :
    ((fam.labels k).2.labels k).1 = (fam.labels k).1
    ∧ ((fam.labels k).2.labels k).2 = (fam.labels k).2
    ∧ (fam.labels k).2.nextId ≤ fam.nextId + 1
    ∧ ((fam.labels k).2.labels k).2.nextId = (fam.labels k).2.nextId
    ∧ ((fam.labels k).2.metrics.filter (fun e => decide (e.1 = k))).length = 1 := by
  cases hfind : findMetric k fam.metrics with
  | some i =>
    have h1 : fam.labels k = (i, fam) := by
      simp [MetricFamily.labels, hfind]
    refine ⟨by simp [h1], by simp [h1], by simp [h1], by simp [h1], ?_⟩
    have h5 : (fam.labels k).2.metrics = fam.metrics := by rw [h1]
    rw [h5]
    exact filter_key_length_one fam.metrics hnodup hfind
  | none =>
    have h1 : fam.labels k = (fam.nextId,
        { fam with metrics := fam.metrics ++ [(k, fam.nextId)],
                   nextId := fam.nextId + 1 }) := by
      simp [MetricFamily.labels, hfind]
    have hfind' : findMetric k (fam.metrics ++ [(k, fam.nextId)]) = some fam.nextId :=
      findMetric_append fam.metrics hfind
    have h2 : MetricFamily.labels
        { fam with metrics := fam.metrics ++ [(k, fam.nextId)],
                   nextId := fam.nextId + 1 } k
        = (fam.nextId,
          { fam with metrics := fam.metrics ++ [(k, fam.nextId)],
                     nextId := fam.nextId + 1 }) := by
      simp [MetricFamily.labels, hfind']
    refine ⟨by simp [h1, h2], by simp [h1, h2], by simp [h1], by simp [h1, h2], ?_⟩
    have h5 : (fam.labels k).2.metrics = fam.metrics ++ [(k, fam.nextId)] := by rw [h1]
    rw [h5, List.filter_append]
    have hnil : fam.metrics.filter (fun e => decide (e.1 = k)) = [] := by
      rw [List.filter_eq_nil_iff]
      intro e he
      simp only [decide_eq_true_eq]
      exact (findMetric_none_iff fam.metrics).mp hfind e he
    rw [hnil]
    simp

/-- Witness for C1 at a concrete input: the one-label family
`requests_total{method}` resolved twice at key `["GET"]`. -/
theorem resolve_same_metric_spec_witness :
    ((["GET"] : List String).length
        = (⟨"requests_total", "", ["method"], [], 0⟩ : MetricFamily).labelNames.length
      ∧ ((⟨"requests_total", "", ["method"], [], 0⟩ : MetricFamily).metrics.map Prod.fst).Nodup)
    ∧ ((((⟨"requests_total", "", ["method"], [], 0⟩ : MetricFamily).labels
          ["GET"]).2.labels ["GET"]).1
        = ((⟨"requests_total", "", ["method"], [], 0⟩ : MetricFamily).labels ["GET"]).1
      ∧ (((⟨"requests_total", "", ["method"], [], 0⟩ : MetricFamily).labels
          ["GET"]).2.labels ["GET"]).2
        = ((⟨"requests_total", "", ["method"], [], 0⟩ : MetricFamily).labels ["GET"]).2
      ∧ ((⟨"requests_total", "", ["method"], [], 0⟩ : MetricFamily).labels ["GET"]).2.nextId
        ≤ (⟨"requests_total", "", ["method"], [], 0⟩ : MetricFamily).nextId + 1
      ∧ (((⟨"requests_total", "", ["method"], [], 0⟩ : MetricFamily).labels
          ["GET"]).2.labels ["GET"]).2.nextId
        = ((⟨"requests_total", "", ["method"], [], 0⟩ : MetricFamily).labels ["GET"]).2.nextId
      ∧ (((⟨"requests_total", "", ["method"], [], 0⟩ : MetricFamily).labels
          ["GET"]).2.metrics.filter (fun e => decide (e.1 = ["GET"]))).length = 1) :=
  ⟨⟨rfl, by simp⟩,
    resolve_same_metric_spec ⟨"requests_total", "", ["method"], [], 0⟩ ["GET"] rfl (by simp)⟩

/-- C5 (evaluation of the code at the claim's inputs): the name regex is
enforced as claimed (empty, leading-digit and embedded-`-` names are
rejected, `__`-prefixed label names are rejected), but `isValidLabelName`
accepts the empty string — contradicting the regex
`[a-zA-Z_][a-zA-Z0-9_]*` stated in the comment directly above it — so family
construction with an empty label name succeeds; and the `MetricFamily`
constructor performs no `le` check, so a histogram-shaped family declaring a
label named `le` also constructs successfully (the `le` assertion sits in
`MetricFamily<Histogram>::collect`, not in the constructor). -/
theorem label_name_validation_code_eval :
    detail.isValidMetricName "" = false
    ∧ detail.isValidMetricName "9abc" = false
    ∧ detail.isValidMetricName "a-b" = false
    ∧ detail.isValidLabelName "__x" = false
    ∧ detail.isValidLabelName "" = true
    ∧ metricFamilyInit "requests_total" [""] ""
        = .ok ⟨"requests_total", "", [""], [], 0⟩
    ∧ metricFamilyInit "request_duration_seconds" ["le"] ""
        = .ok ⟨"request_duration_seconds", "", ["le"], [], 0⟩ :=
  ⟨rfl, rfl, rfl, rfl, rfl, rfl, rfl⟩

/-- C6 (evaluation of the code at the claim's input): `labels` performs no
arity check, so resolving a two-value key on a family that declares one label
name does not fail — it constructs and inserts a metric under the mismatched
key — and serializing the family's own `collect()` output then fails the
serializer's `labelNames.size() == labelValues.size()` assertion. -/
theorem labels_arity_code_eval :
    ((⟨"http_requests_total", "", ["method"], [], 0⟩ : MetricFamily).labels
        ["GET", "extra"]).2.metrics = [(["GET", "extra"], 0)]
    ∧ ((⟨"http_requests_total", "", ["method"], [], 0⟩ : MetricFamily).labels
        ["GET", "extra"]).2.nextId = 1
    ∧ serialize (collectCounter
        ((⟨"http_requests_total", "", ["method"], [], 0⟩ : MetricFamily).labels
          ["GET", "extra"]).2 (fun _ => .finite 0))
        = .error () :=
  ⟨rfl, rfl, rfl⟩

theorem length_pos_of_ne_empty {s : String} (h : s ≠ "") : 0 < s.length := by
  cases s with
  | mk d =>
    cases d with
    | nil => exact absurd rfl h
    | cons c t => simp [String.length]

/-- C3 (counterexample): the claimed rendering `steps_total 3.000000` is not
what `serialize` produces for the no-label counter family at value 3 —
`std::to_chars` with `chars_format::fixed` and no precision argument emits
the shortest round-trip form `3`, not six fixed decimals. -/
theorem serialize_fixed_precision_counterexample :
    serialize [⟨"steps_total", "", "counter", [⟨"steps_total", .finite 3, [], []⟩]⟩]
      ≠ .ok "# TYPE steps_total counter\nsteps_total 3.000000\n\n" := by
  intro h
  rw [show serialize [⟨"steps_total", "", "counter", [⟨"steps_total", .finite 3, [], []⟩]⟩]
      = .ok "# TYPE steps_total counter\nsteps_total 3\n\n" from rfl] at h
  exact absurd (Except.ok.inj h) (by decide)

/-- C3 (amended): `serialize` emits, per family in input order, the
`# HELP` line exactly when the help text is non-empty, always the `# TYPE`
line, one line per sample with the braced label list omitted entirely for a
zero-label sample, and a terminating blank line; the empty family list yields
the empty string; and the no-label counter family `steps_total` at value 3
renders exactly `# TYPE steps_total counter\nsteps_total 3\n\n` (the
implementation's `to_chars` fixed formatting renders 3 as `3`). -/
theorem serialize_spec :
    serialize [] = .ok ""
    ∧ (∀ (f : Family) (fs : List Family) (a b : String), serializeFamily f = .ok a →
        serialize fs = .ok b → serialize (f :: fs) = .ok (a ++ b))
    ∧ (∀ (f : Family) (body : String), serializeSamples f.samples = .ok body →
        (f.help = "" → serializeFamily f
            = .ok ("# TYPE " ++ f.name ++ " " ++ f.type ++ "\n" ++ body ++ "\n"))
        ∧ (f.help ≠ "" → serializeFamily f
            = .ok ("# HELP " ++ f.name ++ " " ++ f.help ++ "\n"
                ++ ("# TYPE " ++ f.name ++ " " ++ f.type ++ "\n" ++ body ++ "\n"))))
    ∧ (∀ (n : String) (v : Double),
        serializeSample ⟨n, v, [], []⟩ = .ok (n ++ " " ++ toString v ++ "\n"))
    ∧ serialize [⟨"steps_total", "", "counter", [⟨"steps_total", .finite 3, [], []⟩]⟩]
        = .ok "# TYPE steps_total counter\nsteps_total 3\n\n" := by
  refine ⟨rfl, ?_, ?_, ?_, rfl⟩
  · intro f fs a b hf hfs
    simp only [serialize, hf, hfs]
  · intro f body hbody
    constructor
    · intro hh
      simp only [serializeFamily, hbody, hh]
      simp [String.empty_append]
    · intro hh
      simp only [serializeFamily, hbody]
      rw [if_pos (length_pos_of_ne_empty hh)]
      simp only [String.append_assoc]
  · intro n v
    simp [serializeSample, String.append_empty, String.append_assoc]

/-- Witness for C3's amended theorem at concrete inputs: a help-less family
and a family with help text, each with one zero-label sample. -/
theorem serialize_spec_witness :
    (serializeFamily ⟨"a_total", "", "counter", []⟩ = .ok ("# TYPE a_total counter\n" ++ "\n")
      ∧ serialize [] = .ok ""
      ∧ serialize [⟨"a_total", "", "counter", []⟩]
          = .ok (("# TYPE a_total counter\n" ++ "\n") ++ ""))
    ∧ (serializeSamples ([] : List Sample) = .ok ""
      ∧ serializeFamily ⟨"a_total", "", "counter", []⟩
          = .ok ("# TYPE " ++ "a_total" ++ " " ++ "counter" ++ "\n" ++ "" ++ "\n")
      ∧ serializeFamily ⟨"b_total", "bees", "counter", []⟩
          = .ok ("# HELP " ++ "b_total" ++ " " ++ "bees" ++ "\n"
              ++ ("# TYPE " ++ "b_total" ++ " " ++ "counter" ++ "\n" ++ "" ++ "\n")))
    ∧ serializeSample ⟨"a_total", .finite 3, [], []⟩
        = .ok ("a_total" ++ " " ++ toString (.finite 3) ++ "\n") := by
  refine ⟨⟨rfl, rfl, ?_⟩, ⟨rfl, ?_, ?_⟩, ?_⟩
  · exact serialize_spec.2.1 ⟨"a_total", "", "counter", []⟩ [] _ "" rfl rfl
  · exact (serialize_spec.2.2.1 ⟨"a_total", "", "counter", []⟩ "" rfl).1 rfl
  · exact (serialize_spec.2.2.1 ⟨"b_total", "bees", "counter", []⟩ "" rfl).2 (by decide)
  · exact serialize_spec.2.2.2.1 "a_total" (.finite 3)

end cpprom
